import Mathlib

/-
Shallow embedding of the annotation-driven ingress transformation core of
winterpixelgames/gameserver-ingress-controller:
  - pkg/gameserver/gameserver.go  (annotation accessor, routing mode resolver,
    port accessor, annotation key constants)
  - pkg/reconcilers/options.go    (the IngressOption transformation steps)

Go maps are modelled as association lists (`List (String × String)`); a nil Go
map on the target resource is `Option.none`, because reading a nil map is legal
in Go while writing to it panics — the embedding makes that panic explicit as
`StepResult.panicked`.  Machine strings are Lean `String`s; Go's byte-level
prefix operations coincide with character-level ones here because every fixed
prefix in this code is ASCII.
-/

namespace GSIC

/-- Go map read `m[k]`: the value bound to `k`, if any.  Association lists in
this development always play the role of Go maps, whose keys are unique; the
lookup takes the first binding. -/
def lookupAnn (m : List (String × String)) (k : String) : Option String :=
  (m.find? (fun p => p.1 == k)).map (fun p => p.2)

/-- Go map write `m[k] = v`: replace the first binding for `k` if present,
otherwise append a new binding. -/
def setAnn : List (String × String) → String → String → List (String × String)
  | [], k, v => [(k, v)]
  | p :: rest, k, v => if p.1 == k then (k, v) :: rest else p :: setAnn rest k v

/-- `strings.HasPrefix p s` (arguments: the candidate prefix first). -/
def hasPfx (p s : String) : Bool := p.data.isPrefixOf s.data

/-- `strings.TrimPrefix`: drop `p` from the front of `s` when it is a prefix,
otherwise return `s` unchanged. -/
def trimPfx (p s : String) : String :=
  if p.data.isPrefixOf s.data then String.mk (s.data.drop p.data.length) else s

/-! Constants from pkg/gameserver/gameserver.go.  `IngressRoutingMode` is a Go
string type, so it is modelled as `String`. -/

def IngressRoutingModeDomain : String := "domain"

def IngressRoutingModePath : String := "path"

def OctopsAnnotationIngressMode : String := "octops.io/gameserver-ingress-mode"

def OctopsAnnotationIngressDomain : String := "octops.io/gameserver-ingress-domain"

def OctopsAnnotationIngressFQDN : String := "octops.io/gameserver-ingress-fqdn"

def OctopsAnnotationSecretName : String := "octops.io/secret-name"

def OctopsAnnotationTerminateTLS : String := "octops.io/terminate-tls"

def OctopsAnnotationIssuerName : String := "octops.io/issuer-tls-name"

/-- The constant named `OctopsAnnotationCustomPrefix` in the source. -/
def OctopsAnnotationCustomPfx : String := "octops-"

def CertManagerAnnotationIssuer : String := "cert-manager.io/issuer"

/-- `agonesv1.GameServerStatusPort`: only the fields this core reads. -/
structure GameServerStatusPort where
  name : String
  port : Int
  deriving DecidableEq, Repr

/-- The read-only game-server record: the fields of `agonesv1.GameServer` this
core consumes (`gs.Name`, `gs.Annotations`, `gs.Status.Ports`). -/
structure GameServer where
  name : String
  annotations : List (String × String)
  statusPorts : List GameServerStatusPort
  deriving DecidableEq, Repr

/-- `networkingv1.ServiceBackendPort` (the `Number` variant used here). -/
structure ServiceBackendPort where
  number : Int
  deriving DecidableEq, Repr

structure IngressServiceBackend where
  name : String
  port : ServiceBackendPort
  deriving DecidableEq, Repr

structure IngressBackend where
  service : IngressServiceBackend
  deriving DecidableEq, Repr

/-- The constant `defaultPathType` is declared outside the two embedded source
files; no claim depends on its value, so the path-type is an abstract one-point
type whose single inhabitant stands for that constant. -/
inductive PathType where
  | defaultPathType
  deriving DecidableEq, Repr

structure HTTPIngressPath where
  path : String
  pathType : PathType
  backend : IngressBackend
  deriving DecidableEq, Repr

structure HTTPIngressRuleValue where
  paths : List HTTPIngressPath
  deriving DecidableEq, Repr

structure IngressRule where
  host : String
  http : HTTPIngressRuleValue
  deriving DecidableEq, Repr

structure IngressTLS where
  hosts : List String
  secretName : String
  deriving DecidableEq, Repr

/-- The mutable target resource (`networkingv1.Ingress`): annotation map
(`none` = nil Go map), rule list, TLS list. -/
structure Ingress where
  annotations : Option (List (String × String))
  rules : List IngressRule
  tls : List IngressTLS
  deriving DecidableEq, Repr

/-- The annotation accessor, named `HasAnnotation` in the source: `(value,
true)` when the key is present, `("", false)` otherwise. -/
def HasAnn (gs : GameServer) (key : String) : String × Bool :=
  match lookupAnn gs.annotations key with
  | some value => (value, true)
  | none => ("", false)

/-- `gameserver.GetIngressRoutingMode`: the raw value of the ingress-mode
annotation when present, `"domain"` when absent. -/
def GetIngressRoutingMode (gs : GameServer) : String :=
  let r := HasAnn gs OctopsAnnotationIngressMode
  if r.2 then r.1 else IngressRoutingModeDomain

/-- `gameserver.GetGameServerPort`: the first status port, or the zero value
of `GameServerStatusPort` when none is declared. -/
def GetGameServerPort (gs : GameServer) : GameServerStatusPort :=
  match gs.statusPorts with
  | p :: _ => p
  | [] => ⟨"", 0⟩

/-- Outcome of one `IngressOption` step: the mutated resource on success, the
Go error's message on failure, or `panicked` for the runtime panic a write
into a nil map causes. -/
inductive StepResult where
  | ok (ingress : Ingress)
  | err (msg : String)
  | panicked
  deriving DecidableEq, Repr

/-- The error builder local to `WithTLS` (note: no game-server name). -/
def errMsgInvalidAnnTLS (mode annKey : String) : String :=
  "ingress routing mode " ++ mode ++ " requires the annotation " ++ annKey ++ " to be set"

/-- The error builder local to `WithIngressRule` (mode, key and name). -/
def errMsgInvalidAnnRule (mode annKey gsName : String) : String :=
  "ingress routing mode " ++ mode ++ " requires the annotation " ++ annKey ++
    " to be present on " ++ gsName ++ ", check your Fleet or GameServer manifest."

/-- Outcome of the copy loop inside `WithCustomAnnotations`: the final target
annotation map, the error, or the nil-map write panic. -/
inductive AnnLoopResult where
  | ok (m : Option (List (String × String)))
  | err (msg : String)
  | panicked
  deriving DecidableEq, Repr

/-- Loop of `WithCustomAnnotations` over the source annotations: copy every
`octops-`-prefixed key with the prefix stripped; an empty remainder is an
error; a write into a nil target map panics. -/
def customLoop : List (String × String) → Option (List (String × String)) → AnnLoopResult
  | [], m => .ok m
  | (k, v) :: rest, m =>
    if hasPfx OctopsAnnotationCustomPfx k then
      let custom := trimPfx OctopsAnnotationCustomPfx k
      if custom.length == 0 then .err "custom annotation does not contain a suffix"
      else
        match m with
        | none => .panicked
        | some mm => customLoop rest (some (setAnn mm custom v))
    else customLoop rest m

/-- `reconcilers.WithCustomAnnotations` (the closure it returns, applied to a
record and a target).  `ingress.SetAnnotations` re-installs the same (mutated)
map, so the model stores the loop's final map back into the resource. -/
def WithCustomAnnotations (gs : GameServer) (ingress : Ingress) : StepResult :=
  match customLoop gs.annotations ingress.annotations with
  | .ok m => .ok { ingress with annotations := m }
  | .err e => .err e
  | .panicked => .panicked

/-- The local helper `tlsForDomain` inside `WithTLS`. -/
def tlsForDomain (mode : String) (gs : GameServer) : Except String (String × String) :=
  let r := HasAnn gs OctopsAnnotationIngressDomain
  if r.2 then .ok (gs.name ++ "." ++ r.1, gs.name ++ "-tls")
  else .error (errMsgInvalidAnnTLS mode OctopsAnnotationIngressDomain)

/-- The local helper `tlsForPath` inside `WithTLS`. -/
def tlsForPath (mode : String) (gs : GameServer) : Except String (String × String) :=
  let r := HasAnn gs OctopsAnnotationIngressFQDN
  if r.2 then .ok (r.1, gs.name ++ "-tls")
  else .error (errMsgInvalidAnnTLS mode OctopsAnnotationIngressFQDN)

/-- `reconcilers.WithTLS`: resolve host and default secret name by mode (the
`domain` case falls through to the `default` arm, so every mode other than
`path` takes the domain branch), let the secret-name annotation override the
secret, and replace the resource's TLS list with the single entry. -/
def WithTLS (mode : String) (gs : GameServer) (ingress : Ingress) : StepResult :=
  let hs := if mode == IngressRoutingModePath then tlsForPath mode gs else tlsForDomain mode gs
  match hs with
  | .error e => .err e
  | .ok (host, secret0) =>
    let sr := HasAnn gs OctopsAnnotationSecretName
    let secret := if sr.2 then sr.1 else secret0
    .ok { ingress with tls := [{ hosts := [host], secretName := secret }] }

/-- `reconcilers.newIngressRule`: the one-element rule list. -/
def newIngressRule (host path name : String) (port : Int) : List IngressRule :=
  [{ host := host,
     http := { paths := [{ path := path,
                           pathType := PathType.defaultPathType,
                           backend := { service := { name := name, port := { number := port } } } }] } }]

/-- `reconcilers.WithIngressRule`: the `path` arm requires the fqdn annotation
(host = fqdn, path = "/" + name); the `domain` arm falls through to `default`,
so every other mode requires the domain annotation (host = name + "." + domain,
path = "/"); the rule list is replaced wholesale. -/
def WithIngressRule (mode : String) (gs : GameServer) (ingress : Ingress) : StepResult :=
  if mode == IngressRoutingModePath then
    let r := HasAnn gs OctopsAnnotationIngressFQDN
    if r.2 then
      .ok { ingress with
            rules := newIngressRule r.1 ("/" ++ gs.name) gs.name (GetGameServerPort gs).port }
    else .err (errMsgInvalidAnnRule mode OctopsAnnotationIngressFQDN gs.name)
  else
    let r := HasAnn gs OctopsAnnotationIngressDomain
    if r.2 then
      .ok { ingress with
            rules := newIngressRule (gs.name ++ "." ++ r.1) "/" gs.name (GetGameServerPort gs).port }
    else .err (errMsgInvalidAnnRule mode OctopsAnnotationIngressDomain gs.name)

/-- Go's `strconv.ParseBool`: the twelve accepted literals, `none` otherwise. -/
def ParseBool (s : String) : Option Bool :=
  if s == "1" || s == "t" || s == "T" || s == "TRUE" || s == "true" || s == "True" then some true
  else if s == "0" || s == "f" || s == "F" || s == "FALSE" || s == "false" || s == "False" then some false
  else none

/-- `reconcilers.WithTLSCertIssuer`: the conditional ladder — no-op when
terminate-tls is absent or empty; error when it does not parse as a boolean;
no-op when it parses to false; no-op when a secret-name annotation is present;
error when the configured issuer name is empty; otherwise write the
cert-manager issuer annotation (a panic when the target map is nil). -/
def WithTLSCertIssuer (issuerName : String) (gs : GameServer) (ingress : Ingress) : StepResult :=
  let t := HasAnn gs OctopsAnnotationTerminateTLS
  if !t.2 || t.1.length == 0 then .ok ingress
  else
    match ParseBool t.1 with
    | none =>
      .err ("annotation " ++ OctopsAnnotationTerminateTLS ++ " for " ++ gs.name ++
        " must be \"true\" or \"false\"")
    | some terminateTLS =>
      if terminateTLS == false then .ok ingress
      else
        let s := HasAnn gs OctopsAnnotationSecretName
        if s.2 then .ok ingress
        else if issuerName.length == 0 then
          .err ("annotation " ++ OctopsAnnotationIssuerName ++ " for " ++ gs.name ++
            " must be present, check your Fleet or GameServer manifest.")
        else
          match ingress.annotations with
          | none => .panicked
          | some m => .ok { ingress with annotations := some (setAnn m CertManagerAnnotationIssuer issuerName) }

/-- Modelled from the spec: the Pipeline Executor (§4.7) that applies the
`IngressOption` steps in order, short-circuiting on the first failure, lives
outside the two embedded source files; it is the plain fail-fast fold the spec
describes. -/
def runPipeline : List (GameServer → Ingress → StepResult) → GameServer → Ingress → StepResult
  | [], _, ingress => .ok ingress
  | o :: rest, gs, ingress =>
    match o gs ingress with
    | .ok next => runPipeline rest gs next
    | .err e => .err e
    | .panicked => .panicked

/-- Substring test used to state what data an error message carries. -/
def containsSub (s part : String) : Bool := decide (part.data <:+: s.data)

/-! ### Helper lemmas about the map model and the string helpers -/

theorem hasAnn_some {gs : GameServer} {key v : String}
    (h : lookupAnn gs.annotations key = some v) : HasAnn gs key = (v, true) := by
  simp [HasAnn, h]

theorem hasAnn_none {gs : GameServer} {key : String}
    (h : lookupAnn gs.annotations key = none) : HasAnn gs key = ("", false) := by
  simp [HasAnn, h]

theorem lookupAnn_cons (p : String × String) (m : List (String × String)) (k : String) :
    lookupAnn (p :: m) k = if p.1 == k then some p.2 else lookupAnn m k := by
  cases h : p.1 == k <;> simp [lookupAnn, List.find?_cons, h]

theorem lookupAnn_setAnn_self (m : List (String × String)) (k v : String) :
    lookupAnn (setAnn m k v) k = some v := by
  induction m with
  | nil => simp [setAnn, lookupAnn]
  | cons p rest ih =>
    by_cases h : p.1 = k
    · simp [setAnn, h, lookupAnn_cons]
    · have hb : (p.1 == k) = false := by simp [h]
      simp [setAnn, hb, lookupAnn_cons, ih]

theorem lookupAnn_setAnn_other (m : List (String × String)) {k c : String} (v : String)
    (h : c ≠ k) : lookupAnn (setAnn m k v) c = lookupAnn m c := by
  have hkc : (k == c) = false := beq_eq_false_iff_ne.mpr (fun hh => h hh.symm)
  induction m with
  | nil => simp [setAnn, lookupAnn_cons, hkc, lookupAnn]
  | cons p rest ih =>
    by_cases hpk : p.1 = k
    · have hpc : (p.1 == c) = false := by rw [hpk]; exact hkc
      simp [setAnn, hpk, lookupAnn_cons, hkc, hpc]
    · have hb : (p.1 == k) = false := by simp [hpk]
      simp [setAnn, hb, lookupAnn_cons, ih]

theorem hasPfx_iff (p s : String) : hasPfx p s = true ↔ ∃ t, p.data ++ t = s.data := by
  constructor
  · intro h
    exact List.isPrefixOf_iff_prefix.mp h
  · intro h
    exact List.isPrefixOf_iff_prefix.mpr h

theorem trimPfx_data {p s : String} (h : hasPfx p s = true) :
    p.data ++ (trimPfx p s).data = s.data := by
  obtain ⟨t, ht⟩ := (hasPfx_iff p s).mp h
  have hp : p.data.isPrefixOf s.data = true := h
  simp only [trimPfx, hp, if_true]
  rw [← ht, List.drop_left]

theorem eq_pfx_of_trim_empty {p s : String} (h : hasPfx p s = true)
    (he : trimPfx p s = "") : s = p := by
  have h1 := trimPfx_data h
  rw [he] at h1
  have h2 : p.data = s.data := by simpa using h1
  exact String.ext h2.symm

theorem hasPfx_refl (p : String) : hasPfx p p = true :=
  (hasPfx_iff p p).mpr ⟨[], by simp⟩

theorem trimPfx_refl (p : String) : trimPfx p p = "" := by
  have h := trimPfx_data (hasPfx_refl p)
  have h3 : p.data ++ (trimPfx p p).data = p.data ++ [] := by simpa using h
  exact String.ext (List.append_cancel_left h3)

theorem trim_eq_iff {p k c : String} (h : hasPfx p k = true) :
    trimPfx p k = c ↔ k.data = p.data ++ c.data := by
  constructor
  · intro hc
    rw [← trimPfx_data h, hc]
  · intro hk
    have h2 : p.data ++ (trimPfx p k).data = p.data ++ c.data := by
      rw [trimPfx_data h]; exact hk
    exact String.ext (List.append_cancel_left h2)

theorem find?_key_of_nodup {l : List (String × String)} {k v : String}
    (hnd : (l.map Prod.fst).Nodup) (hmem : (k, v) ∈ l) :
    l.find? (fun p => p.1 == k) = some (k, v) := by
  induction l with
  | nil => cases hmem
  | cons p rest ih =>
    rcases List.mem_cons.mp hmem with hh | ht
    · subst hh
      simp [List.find?_cons]
    · have hk : k ∈ rest.map Prod.fst := List.mem_map.mpr ⟨(k, v), ht, rfl⟩
      have hp : (p.1 == k) = false := by
        have := (List.nodup_cons.mp hnd).1
        simp only [beq_eq_false_iff_ne]
        intro he
        exact this (he ▸ hk)
      simp [List.find?_cons, hp]
      exact ih (List.nodup_cons.mp hnd).2 ht

theorem pfx_append_trim {p k : String} (h : hasPfx p k = true) : p ++ trimPfx p k = k := by
  apply String.ext
  rw [String.data_append]
  exact trimPfx_data h

/-- The value `WithCustomAnnotations` copies onto target key `c`, if any: the
source entry whose key is the custom prefix followed by `c`. -/
def copiedVal (l : List (String × String)) (c : String) : Option String :=
  (l.find? (fun p => p.1 == OctopsAnnotationCustomPfx ++ c)).map Prod.snd

theorem customLoop_some_ne_panicked (l : List (String × String)) :
    ∀ m : List (String × String), customLoop l (some m) ≠ AnnLoopResult.panicked := by
  induction l with
  | nil => intro m h; simp [customLoop] at h
  | cons p rest ih =>
    intro m h
    obtain ⟨k, v⟩ := p
    by_cases hpf : hasPfx OctopsAnnotationCustomPfx k = true
    · cases he : (trimPfx OctopsAnnotationCustomPfx k).length == 0 with
      | true => simp [customLoop, hpf, he] at h
      | false =>
        simp only [customLoop, hpf, if_true, he] at h
        simp at h
        exact ih _ h
    · have hpf2 : hasPfx OctopsAnnotationCustomPfx k = false := by
        cases hx : hasPfx OctopsAnnotationCustomPfx k
        · rfl
        · exact absurd hx hpf
      simp [customLoop, hpf2] at h
      exact ih _ h

theorem customLoop_err_of_empty_suffix (l : List (String × String)) :
    ∀ m : List (String × String), OctopsAnnotationCustomPfx ∈ l.map Prod.fst →
      customLoop l (some m) = .err "custom annotation does not contain a suffix" := by
  induction l with
  | nil => intro m hmem; simp at hmem
  | cons p rest ih =>
    intro m hmem
    obtain ⟨k, v⟩ := p
    rcases List.mem_cons.mp hmem with hh | ht
    · have hk : k = OctopsAnnotationCustomPfx := hh.symm
      subst hk
      simp [customLoop, hasPfx_refl, trimPfx_refl]
    · by_cases hpf : hasPfx OctopsAnnotationCustomPfx k = true
      · cases he : (trimPfx OctopsAnnotationCustomPfx k).length == 0 with
        | true => simp [customLoop, hpf, he]
        | false =>
          simp only [customLoop, hpf, if_true, he]
          simp
          exact ih _ ht
      · have hpf2 : hasPfx OctopsAnnotationCustomPfx k = false := by
          cases hx : hasPfx OctopsAnnotationCustomPfx k
          · rfl
          · exact absurd hx hpf
        simp [customLoop, hpf2]
        exact ih _ ht

theorem customLoop_ok_of_nonempty (l : List (String × String)) :
    ∀ m : List (String × String),
      (l.map Prod.fst).Nodup →
      (∀ k v, (k, v) ∈ l → hasPfx OctopsAnnotationCustomPfx k = true →
        trimPfx OctopsAnnotationCustomPfx k ≠ "") →
      ∃ m2, customLoop l (some m) = .ok (some m2) ∧
        ∀ c : String,
          (copiedVal l c = none → lookupAnn m2 c = lookupAnn m c) ∧
          (∀ w, copiedVal l c = some w → lookupAnn m2 c = some w) := by
  induction l with
  | nil =>
    intro m _ _
    exact ⟨m, rfl, fun c => ⟨fun _ => rfl, fun w hw => by simp [copiedVal] at hw⟩⟩
  | cons p rest ih =>
    intro m hnd hne
    obtain ⟨k, v⟩ := p
    have hndt : (rest.map Prod.fst).Nodup := (List.nodup_cons.mp (by simpa using hnd)).2
    have hknot : k ∉ rest.map Prod.fst := (List.nodup_cons.mp (by simpa using hnd)).1
    have hnet : ∀ k' v', (k', v') ∈ rest → hasPfx OctopsAnnotationCustomPfx k' = true →
        trimPfx OctopsAnnotationCustomPfx k' ≠ "" :=
      fun k' v' hm => hne k' v' (List.mem_cons_of_mem _ hm)
    by_cases hpf : hasPfx OctopsAnnotationCustomPfx k = true
    · have htne : trimPfx OctopsAnnotationCustomPfx k ≠ "" :=
        hne k v (List.mem_cons_self _ _) hpf
      have hlen : ((trimPfx OctopsAnnotationCustomPfx k).length == 0) = false := by
        simp only [beq_eq_false_iff_ne]
        intro hz
        exact htne (String.ext (List.length_eq_zero.mp hz))
      obtain ⟨m2, heq, hprop⟩ := ih (setAnn m (trimPfx OctopsAnnotationCustomPfx k) v) hndt hnet
      refine ⟨m2, ?_, ?_⟩
      · simp only [customLoop, hpf, if_true, hlen]
        simp only [Bool.false_eq_true, if_false]
        exact heq
      · intro c
        by_cases hkc : k = OctopsAnnotationCustomPfx ++ c
        · have htc : trimPfx OctopsAnnotationCustomPfx k = c := by
            rw [trim_eq_iff hpf, hkc, String.data_append]
          constructor
          · intro hnone
            exfalso
            simp [copiedVal, List.find?_cons, hkc] at hnone
          · intro w hw
            have hwv : w = v := by
              simp [copiedVal, List.find?_cons, hkc] at hw
              exact hw.symm
            subst hwv
            have hfind : rest.find? (fun p => p.1 == OctopsAnnotationCustomPfx ++ c) = none := by
              rw [List.find?_eq_none]
              intro a ha hac
              have ha1 : a.1 = OctopsAnnotationCustomPfx ++ c := by
                exact eq_of_beq hac
              exact hknot (List.mem_map.mpr ⟨a, ha, by rw [ha1, ← hkc]⟩)
            have hrest : copiedVal rest c = none := by
              rw [copiedVal, hfind]
              rfl
            have := (hprop c).1 hrest
            rw [this, htc, lookupAnn_setAnn_self]
        · have hkc2 : (k == OctopsAnnotationCustomPfx ++ c) = false :=
            beq_eq_false_iff_ne.mpr hkc
          have hct : c ≠ trimPfx OctopsAnnotationCustomPfx k := by
            intro hc
            exact hkc (by rw [hc]; exact (pfx_append_trim hpf).symm)
          have hcv : copiedVal ((k, v) :: rest) c = copiedVal rest c := by
            simp [copiedVal, List.find?_cons, hkc2]
          constructor
          · intro hnone
            rw [hcv] at hnone
            rw [(hprop c).1 hnone]
            exact lookupAnn_setAnn_other m v hct
          · intro w hw
            rw [hcv] at hw
            exact (hprop c).2 w hw
    · have hpf2 : hasPfx OctopsAnnotationCustomPfx k = false := by
        cases hx : hasPfx OctopsAnnotationCustomPfx k
        · rfl
        · exact absurd hx hpf
      obtain ⟨m2, heq, hprop⟩ := ih m hndt hnet
      refine ⟨m2, ?_, ?_⟩
      · simpa [customLoop, hpf2] using heq
      · intro c
        have hkc : (k == OctopsAnnotationCustomPfx ++ c) = false := by
          simp only [beq_eq_false_iff_ne]
          intro he
          rw [he] at hpf2
          have : hasPfx OctopsAnnotationCustomPfx (OctopsAnnotationCustomPfx ++ c) = true :=
            (hasPfx_iff _ _).mpr ⟨c.data, (String.data_append _ _).symm⟩
          rw [this] at hpf2
          cases hpf2
        have hcv : copiedVal ((k, v) :: rest) c = copiedVal rest c := by
          simp [copiedVal, List.find?_cons, hkc]
        exact ⟨fun hnone => (hprop c).1 (hcv ▸ hnone), fun w hw => (hprop c).2 w (hcv ▸ hw)⟩

/-! ### Concrete sample records used by witnesses and counterexamples -/

/-- A target resource with an empty but non-nil annotation map. -/
def emptyIngress : Ingress := ⟨some [], [], []⟩

/-- A target resource whose annotation map is a nil Go map. -/
def nilMapIngress : Ingress := ⟨none, [], []⟩

/-- A record with no annotations at all. -/
def gsEmptyAnn : GameServer := ⟨"gs1", [], []⟩

/-- A record carrying only the fqdn annotation. -/
def gsFqdnOnly : GameServer := ⟨"gs1", [(OctopsAnnotationIngressFQDN, "game.example.com")], []⟩

/-- A record carrying only the domain annotation. -/
def gsDomainOnly : GameServer := ⟨"gs1", [(OctopsAnnotationIngressDomain, "example.com")], []⟩

set_option maxRecDepth 16384

/-! ### The claims -/

/-- C1, counterexample: on a record whose ingress-mode annotation holds the
unrecognized value "custom", `GetIngressRoutingMode` returns "custom", not
"domain" — so the resolver itself does not coerce unrecognized values to the
default. -/
theorem c1_cex :
    GetIngressRoutingMode ⟨"gs1", [(OctopsAnnotationIngressMode, "custom")], []⟩ ≠
      IngressRoutingModeDomain := by
  decide

/-- C1, amended: `GetIngressRoutingMode` returns "domain" when the
ingress-mode annotation is absent, and returns the annotation's raw value —
whether recognized or not — when it is present; unrecognized values are only
treated as "domain" downstream, by the builders' default switch arms. -/
theorem c1_thm :
    ∀ gs : GameServer,
      (lookupAnn gs.annotations OctopsAnnotationIngressMode = none →
        GetIngressRoutingMode gs = IngressRoutingModeDomain) ∧
      (∀ v, lookupAnn gs.annotations OctopsAnnotationIngressMode = some v →
        GetIngressRoutingMode gs = v) := by
  intro gs
  constructor
  · intro h
    simp [GetIngressRoutingMode, hasAnn_none h]
  · intro v h
    simp [GetIngressRoutingMode, hasAnn_some h]

/-- C1, witness: the amended claim instantiated on two concrete records. -/
theorem c1_wit :
    GetIngressRoutingMode gsEmptyAnn = IngressRoutingModeDomain ∧
    GetIngressRoutingMode ⟨"gs1", [(OctopsAnnotationIngressMode, "custom")], []⟩ = "custom" :=
  ⟨(c1_thm gsEmptyAnn).1 rfl,
   (c1_thm ⟨"gs1", [(OctopsAnnotationIngressMode, "custom")], []⟩).2 "custom" rfl⟩

/-- C2: in path mode with the fqdn annotation present, `WithIngressRule`
produces the single rule with Host = fqdn and Path = "/" + name; in domain
mode and any other non-path mode with the domain annotation present it
produces the single rule with Host = name + "." + domain and Path = "/"; in
each mode it fails when the respective required annotation is absent. -/
theorem c2_thm :
    ∀ (gs : GameServer) (ing : Ingress),
      (∀ f, lookupAnn gs.annotations OctopsAnnotationIngressFQDN = some f →
        ∃ ing2, WithIngressRule IngressRoutingModePath gs ing = .ok ing2 ∧
          ing2.rules.map (fun r => r.host) = [f] ∧
          ing2.rules.map (fun r => r.http.paths.map (fun q => q.path)) = [["/" ++ gs.name]]) ∧
      (lookupAnn gs.annotations OctopsAnnotationIngressFQDN = none →
        WithIngressRule IngressRoutingModePath gs ing =
          .err (errMsgInvalidAnnRule IngressRoutingModePath OctopsAnnotationIngressFQDN gs.name)) ∧
      (∀ mode, mode ≠ IngressRoutingModePath →
        (∀ d, lookupAnn gs.annotations OctopsAnnotationIngressDomain = some d →
          ∃ ing2, WithIngressRule mode gs ing = .ok ing2 ∧
            ing2.rules.map (fun r => r.host) = [gs.name ++ "." ++ d] ∧
            ing2.rules.map (fun r => r.http.paths.map (fun q => q.path)) = [["/"]]) ∧
        (lookupAnn gs.annotations OctopsAnnotationIngressDomain = none →
          WithIngressRule mode gs ing =
            .err (errMsgInvalidAnnRule mode OctopsAnnotationIngressDomain gs.name))) := by
  intro gs ing
  refine ⟨?_, ?_, ?_⟩
  · intro f h
    refine ⟨{ ing with
              rules := newIngressRule f ("/" ++ gs.name) gs.name (GetGameServerPort gs).port },
            ?_, ?_, ?_⟩
    · simp [WithIngressRule, hasAnn_some h]
    · simp [newIngressRule]
    · simp [newIngressRule]
  · intro h
    simp [WithIngressRule, hasAnn_none h]
  · intro mode hmode
    have hb : (mode == IngressRoutingModePath) = false := beq_eq_false_iff_ne.mpr hmode
    constructor
    · intro d h
      refine ⟨{ ing with
                rules := newIngressRule (gs.name ++ "." ++ d) "/" gs.name (GetGameServerPort gs).port },
              ?_, ?_, ?_⟩
      · simp [WithIngressRule, hb, hasAnn_some h]
      · simp [newIngressRule]
      · simp [newIngressRule]
    · intro h
      simp [WithIngressRule, hb, hasAnn_none h]

/-- C2, witness: the four arms instantiated on concrete records, with
"weird" standing for an arbitrary non-path mode. -/
theorem c2_wit :
    (∃ ing2, WithIngressRule IngressRoutingModePath gsFqdnOnly emptyIngress = .ok ing2 ∧
      ing2.rules.map (fun r => r.host) = ["game.example.com"] ∧
      ing2.rules.map (fun r => r.http.paths.map (fun q => q.path)) = [["/" ++ "gs1"]]) ∧
    WithIngressRule IngressRoutingModePath gsEmptyAnn emptyIngress =
      .err (errMsgInvalidAnnRule IngressRoutingModePath OctopsAnnotationIngressFQDN "gs1") ∧
    (∃ ing2, WithIngressRule "weird" gsDomainOnly emptyIngress = .ok ing2 ∧
      ing2.rules.map (fun r => r.host) = ["gs1" ++ "." ++ "example.com"] ∧
      ing2.rules.map (fun r => r.http.paths.map (fun q => q.path)) = [["/"]]) ∧
    WithIngressRule "weird" gsEmptyAnn emptyIngress =
      .err (errMsgInvalidAnnRule "weird" OctopsAnnotationIngressDomain "gs1") :=
  ⟨(c2_thm gsFqdnOnly emptyIngress).1 "game.example.com" rfl,
   (c2_thm gsEmptyAnn emptyIngress).2.1 rfl,
   ((c2_thm gsDomainOnly emptyIngress).2.2 "weird" (by decide)).1 "example.com" rfl,
   ((c2_thm gsEmptyAnn emptyIngress).2.2 "weird" (by decide)).2 rfl⟩

/-- C3: whenever `WithTLS` succeeds — in either routing mode — the produced
TLS entry's secret name is the secret-name annotation's value verbatim when
that annotation is present, and name + "-tls" otherwise. -/
theorem c3_thm :
    ∀ (mode : String) (gs : GameServer) (ing ing2 : Ingress),
      WithTLS mode gs ing = .ok ing2 →
      (∀ s, lookupAnn gs.annotations OctopsAnnotationSecretName = some s →
        ing2.tls.map (fun t => t.secretName) = [s]) ∧
      (lookupAnn gs.annotations OctopsAnnotationSecretName = none →
        ing2.tls.map (fun t => t.secretName) = [gs.name ++ "-tls"]) := by
  intro mode gs ing ing2 h
  cases hbm : mode == IngressRoutingModePath with
  | true =>
    cases hfq : lookupAnn gs.annotations OctopsAnnotationIngressFQDN with
    | none =>
      simp [WithTLS, tlsForPath, hbm, hasAnn_none hfq] at h
    | some f =>
      constructor
      · intro s hs
        simp [WithTLS, tlsForPath, hbm, hasAnn_some hfq, hasAnn_some hs] at h
        rw [← h]
        simp
      · intro hs
        simp [WithTLS, tlsForPath, hbm, hasAnn_some hfq, hasAnn_none hs] at h
        rw [← h]
        simp
  | false =>
    cases hdo : lookupAnn gs.annotations OctopsAnnotationIngressDomain with
    | none =>
      simp [WithTLS, tlsForDomain, hbm, hasAnn_none hdo] at h
    | some d =>
      constructor
      · intro s hs
        simp [WithTLS, tlsForDomain, hbm, hasAnn_some hdo, hasAnn_some hs] at h
        rw [← h]
        simp
      · intro hs
        simp [WithTLS, tlsForDomain, hbm, hasAnn_some hdo, hasAnn_none hs] at h
        rw [← h]
        simp

/-- A record carrying the fqdn annotation and a secret-name override. -/
def gsFqdnSecret : GameServer :=
  ⟨"gs1", [(OctopsAnnotationIngressFQDN, "game.example.com"),
           (OctopsAnnotationSecretName, "my-secret")], []⟩

/-- C3, witness: the override and the default on concrete records, one per
routing mode, with the hypotheses discharged on the evaluated outputs. -/
theorem c3_wit :
    (Ingress.mk (some []) [] [⟨["game.example.com"], "my-secret"⟩]).tls.map
        (fun t => t.secretName) = ["my-secret"] ∧
    (Ingress.mk (some []) [] [⟨["gs1.example.com"], "gs1-tls"⟩]).tls.map
        (fun t => t.secretName) = ["gs1" ++ "-tls"] :=
  ⟨(c3_thm IngressRoutingModePath gsFqdnSecret emptyIngress
      (Ingress.mk (some []) [] [⟨["game.example.com"], "my-secret"⟩]) (by decide)).1
      "my-secret" rfl,
   (c3_thm IngressRoutingModeDomain gsDomainOnly emptyIngress
      (Ingress.mk (some []) [] [⟨["gs1.example.com"], "gs1-tls"⟩]) (by decide)).2 rfl⟩

/-- C4: `WithTLSCertIssuer`'s conditional ladder, in order: (1) no-op when
terminate-tls is absent or empty; (2) validation error when it does not parse
as a boolean — in particular even when a secret-name annotation is also
present, since the secret check comes later; (3) no-op when it parses to
false; (4) no-op when a secret-name annotation is present; (5) configuration
error when the configured issuer name is empty; (6) otherwise the cert-manager
issuer annotation is set to the issuer name. -/
theorem c4_thm :
    ∀ (issuerName : String) (gs : GameServer) (ing : Ingress),
      ((lookupAnn gs.annotations OctopsAnnotationTerminateTLS = none ∨
          lookupAnn gs.annotations OctopsAnnotationTerminateTLS = some "") →
        WithTLSCertIssuer issuerName gs ing = .ok ing) ∧
      (∀ t, lookupAnn gs.annotations OctopsAnnotationTerminateTLS = some t →
        t ≠ "" → ParseBool t = none →
        WithTLSCertIssuer issuerName gs ing =
          .err ("annotation " ++ OctopsAnnotationTerminateTLS ++ " for " ++ gs.name ++
            " must be \"true\" or \"false\"")) ∧
      (∀ t, lookupAnn gs.annotations OctopsAnnotationTerminateTLS = some t →
        ParseBool t = some false →
        WithTLSCertIssuer issuerName gs ing = .ok ing) ∧
      (∀ t s, lookupAnn gs.annotations OctopsAnnotationTerminateTLS = some t →
        ParseBool t = some true →
        lookupAnn gs.annotations OctopsAnnotationSecretName = some s →
        WithTLSCertIssuer issuerName gs ing = .ok ing) ∧
      (∀ t, lookupAnn gs.annotations OctopsAnnotationTerminateTLS = some t →
        ParseBool t = some true →
        lookupAnn gs.annotations OctopsAnnotationSecretName = none →
        issuerName = "" →
        WithTLSCertIssuer issuerName gs ing =
          .err ("annotation " ++ OctopsAnnotationIssuerName ++ " for " ++ gs.name ++
            " must be present, check your Fleet or GameServer manifest.")) ∧
      (∀ t m, lookupAnn gs.annotations OctopsAnnotationTerminateTLS = some t →
        ParseBool t = some true →
        lookupAnn gs.annotations OctopsAnnotationSecretName = none →
        issuerName ≠ "" → ing.annotations = some m →
        WithTLSCertIssuer issuerName gs ing =
          .ok { ing with annotations := some (setAnn m CertManagerAnnotationIssuer issuerName) }) := by
  intro issuerName gs ing
  have hlen : ∀ t : String, t ≠ "" → (t.length == 0) = false := by
    intro t ht
    simp only [beq_eq_false_iff_ne]
    intro hz
    exact ht (String.ext (List.length_eq_zero.mp hz))
  have hne_of_parse : ∀ (t : String) (b : Bool), ParseBool t = some b → t ≠ "" := by
    intro t b hp he
    subst he
    simp [ParseBool] at hp
  refine ⟨?_, ?_, ?_, ?_, ?_, ?_⟩
  · rintro (h | h)
    · simp [WithTLSCertIssuer, hasAnn_none h]
    · simp [WithTLSCertIssuer, hasAnn_some h]
  · intro t ht htne hp
    simp [WithTLSCertIssuer, hasAnn_some ht, hlen t htne, hp]
  · intro t ht hp
    simp [WithTLSCertIssuer, hasAnn_some ht, hlen t (hne_of_parse t false hp), hp]
  · intro t s ht hp hs
    simp [WithTLSCertIssuer, hasAnn_some ht, hlen t (hne_of_parse t true hp), hp,
      hasAnn_some hs]
  · intro t ht hp hs hIss
    subst hIss
    simp [WithTLSCertIssuer, hasAnn_some ht, hlen t (hne_of_parse t true hp), hp,
      hasAnn_none hs]
  · intro t m ht hp hs hIss hm
    simp [WithTLSCertIssuer, hasAnn_some ht, hlen t (hne_of_parse t true hp), hp,
      hasAnn_none hs, hlen issuerName hIss, hm]

/-- A record with terminate-tls unparseable and a secret-name also present. -/
def gsTermMaybeSecret : GameServer :=
  ⟨"gs1", [(OctopsAnnotationTerminateTLS, "maybe"), (OctopsAnnotationSecretName, "my-secret")], []⟩

/-- A record with terminate-tls=false. -/
def gsTermFalse : GameServer := ⟨"gs1", [(OctopsAnnotationTerminateTLS, "false")], []⟩

/-- A record with terminate-tls=true and a secret-name annotation. -/
def gsTermTrueSecret : GameServer :=
  ⟨"gs1", [(OctopsAnnotationTerminateTLS, "true"), (OctopsAnnotationSecretName, "my-secret")], []⟩

/-- A record with terminate-tls=true and no secret-name annotation. -/
def gsTermTrue : GameServer := ⟨"gs1", [(OctopsAnnotationTerminateTLS, "true")], []⟩

/-- C4, witness: all six rungs of the ladder instantiated on concrete
records; the second rung's record also carries a secret-name annotation,
showing the validation error wins over the secret-name no-op. -/
theorem c4_wit :
    WithTLSCertIssuer "my-issuer" gsEmptyAnn emptyIngress = .ok emptyIngress ∧
    WithTLSCertIssuer "my-issuer" gsTermMaybeSecret emptyIngress =
      .err ("annotation " ++ OctopsAnnotationTerminateTLS ++ " for " ++ "gs1" ++
        " must be \"true\" or \"false\"") ∧
    WithTLSCertIssuer "my-issuer" gsTermFalse emptyIngress = .ok emptyIngress ∧
    WithTLSCertIssuer "my-issuer" gsTermTrueSecret emptyIngress = .ok emptyIngress ∧
    WithTLSCertIssuer "" gsTermTrue emptyIngress =
      .err ("annotation " ++ OctopsAnnotationIssuerName ++ " for " ++ "gs1" ++
        " must be present, check your Fleet or GameServer manifest.") ∧
    WithTLSCertIssuer "my-issuer" gsTermTrue emptyIngress =
      .ok { emptyIngress with
            annotations := some (setAnn [] CertManagerAnnotationIssuer "my-issuer") } :=
  ⟨(c4_thm "my-issuer" gsEmptyAnn emptyIngress).1 (Or.inl rfl),
   (c4_thm "my-issuer" gsTermMaybeSecret emptyIngress).2.1 "maybe" rfl (by decide) rfl,
   (c4_thm "my-issuer" gsTermFalse emptyIngress).2.2.1 "false" rfl rfl,
   (c4_thm "my-issuer" gsTermTrueSecret emptyIngress).2.2.2.1 "true" "my-secret" rfl rfl rfl,
   (c4_thm "" gsTermTrue emptyIngress).2.2.2.2.1 "true" rfl rfl rfl rfl,
   (c4_thm "my-issuer" gsTermTrue emptyIngress).2.2.2.2.2 "true" [] rfl rfl rfl (by decide) rfl⟩

theorem containsSub_self (s : String) : containsSub s s = true := by
  simp only [containsSub, decide_eq_true_eq]
  exact List.infix_refl _

theorem containsSub_appL {s part : String} (t : String)
    (h : containsSub s part = true) : containsSub (s ++ t) part = true := by
  simp only [containsSub, decide_eq_true_eq] at h ⊢
  obtain ⟨u, v, huv⟩ := h
  refine ⟨u, v ++ t.data, ?_⟩
  rw [String.data_append, ← huv]
  simp [List.append_assoc]

theorem containsSub_appR {t part : String} (s : String)
    (h : containsSub t part = true) : containsSub (s ++ t) part = true := by
  simp only [containsSub, decide_eq_true_eq] at h ⊢
  obtain ⟨u, v, huv⟩ := h
  refine ⟨s.data ++ u, v, ?_⟩
  rw [String.data_append, ← huv]
  simp [List.append_assoc]

theorem errRule_contains (mode key name : String) :
    containsSub (errMsgInvalidAnnRule mode key name) mode = true ∧
    containsSub (errMsgInvalidAnnRule mode key name) key = true ∧
    containsSub (errMsgInvalidAnnRule mode key name) name = true := by
  unfold errMsgInvalidAnnRule
  refine ⟨?_, ?_, ?_⟩
  · exact containsSub_appL _ (containsSub_appL _ (containsSub_appL _ (containsSub_appL _
      (containsSub_appL _ (containsSub_appR _ (containsSub_self mode))))))
  · exact containsSub_appL _ (containsSub_appL _ (containsSub_appL _
      (containsSub_appR _ (containsSub_self key))))
  · exact containsSub_appL _ (containsSub_appR _ (containsSub_self name))

theorem errTLS_contains (mode key : String) :
    containsSub (errMsgInvalidAnnTLS mode key) mode = true ∧
    containsSub (errMsgInvalidAnnTLS mode key) key = true := by
  unfold errMsgInvalidAnnTLS
  refine ⟨?_, ?_⟩
  · exact containsSub_appL _ (containsSub_appL _ (containsSub_appL _
      (containsSub_appR _ (containsSub_self mode))))
  · exact containsSub_appL _ (containsSub_appR _ (containsSub_self key))

/-- C5, counterexample: `WithTLS` in domain mode on a record named "mygs" with
no domain annotation fails with a missing-annotation error whose message does
not carry the game-server's name. -/
theorem c5_cex :
    WithTLS IngressRoutingModeDomain ⟨"mygs", [], []⟩ emptyIngress =
      .err (errMsgInvalidAnnTLS IngressRoutingModeDomain OctopsAnnotationIngressDomain) ∧
    containsSub (errMsgInvalidAnnTLS IngressRoutingModeDomain OctopsAnnotationIngressDomain)
      "mygs" = false := by
  constructor
  · decide
  · decide

/-- The annotation key a given routing mode requires, mirroring the builders'
switch: the fqdn key in `path` mode, the domain key for every other mode. -/
def modeRequiredKey (mode : String) : String :=
  if mode == IngressRoutingModePath then OctopsAnnotationIngressFQDN
  else OctopsAnnotationIngressDomain

/-- C5, amended: when `WithIngressRule` fails because the annotation required
by the resolved mode is absent, its error carries the routing mode, the
missing annotation key required by that mode, and the game-server's name;
when `WithTLS` so fails, its error carries the routing mode and that missing
annotation key, but not in general the game-server's name. -/
theorem c5_thm :
    ∀ (mode : String) (gs : GameServer) (ing : Ingress) (e : String),
      (WithIngressRule mode gs ing = .err e →
        containsSub e mode = true ∧ containsSub e gs.name = true ∧
        containsSub e (modeRequiredKey mode) = true) ∧
      (WithTLS mode gs ing = .err e →
        containsSub e mode = true ∧
        containsSub e (modeRequiredKey mode) = true) := by
  intro mode gs ing e
  constructor
  · intro h
    cases hbm : mode == IngressRoutingModePath with
    | true =>
      have hkey : modeRequiredKey mode = OctopsAnnotationIngressFQDN := by
        simp [modeRequiredKey, hbm]
      cases hfq : lookupAnn gs.annotations OctopsAnnotationIngressFQDN with
      | some f => simp [WithIngressRule, hbm, hasAnn_some hfq] at h
      | none =>
        simp [WithIngressRule, hbm, hasAnn_none hfq] at h
        obtain ⟨h1, h2, h3⟩ := errRule_contains mode OctopsAnnotationIngressFQDN gs.name
        rw [← h, hkey]
        exact ⟨h1, h3, h2⟩
    | false =>
      have hkey : modeRequiredKey mode = OctopsAnnotationIngressDomain := by
        simp [modeRequiredKey, hbm]
      cases hdo : lookupAnn gs.annotations OctopsAnnotationIngressDomain with
      | some d => simp [WithIngressRule, hbm, hasAnn_some hdo] at h
      | none =>
        simp [WithIngressRule, hbm, hasAnn_none hdo] at h
        obtain ⟨h1, h2, h3⟩ := errRule_contains mode OctopsAnnotationIngressDomain gs.name
        rw [← h, hkey]
        exact ⟨h1, h3, h2⟩
  · intro h
    cases hbm : mode == IngressRoutingModePath with
    | true =>
      have hkey : modeRequiredKey mode = OctopsAnnotationIngressFQDN := by
        simp [modeRequiredKey, hbm]
      cases hfq : lookupAnn gs.annotations OctopsAnnotationIngressFQDN with
      | some f => simp [WithTLS, tlsForPath, hbm, hasAnn_some hfq] at h
      | none =>
        simp [WithTLS, tlsForPath, hbm, hasAnn_none hfq] at h
        obtain ⟨h1, h2⟩ := errTLS_contains mode OctopsAnnotationIngressFQDN
        rw [← h, hkey]
        exact ⟨h1, h2⟩
    | false =>
      have hkey : modeRequiredKey mode = OctopsAnnotationIngressDomain := by
        simp [modeRequiredKey, hbm]
      cases hdo : lookupAnn gs.annotations OctopsAnnotationIngressDomain with
      | some d => simp [WithTLS, tlsForDomain, hbm, hasAnn_some hdo] at h
      | none =>
        simp [WithTLS, tlsForDomain, hbm, hasAnn_none hdo] at h
        obtain ⟨h1, h2⟩ := errTLS_contains mode OctopsAnnotationIngressDomain
        rw [← h, hkey]
        exact ⟨h1, h2⟩

/-- C5, witness: the amended claim instantiated on a concrete failing record
for each builder; `modeRequiredKey "path"` evaluates to the fqdn key and
`modeRequiredKey "domain"` to the domain key. -/
theorem c5_wit :
    (containsSub (errMsgInvalidAnnRule "path" OctopsAnnotationIngressFQDN "gs1") "path" = true ∧
      containsSub (errMsgInvalidAnnRule "path" OctopsAnnotationIngressFQDN "gs1") "gs1" = true ∧
      containsSub (errMsgInvalidAnnRule "path" OctopsAnnotationIngressFQDN "gs1")
        (modeRequiredKey "path") = true) ∧
    (containsSub (errMsgInvalidAnnTLS "domain" OctopsAnnotationIngressDomain) "domain" = true ∧
      containsSub (errMsgInvalidAnnTLS "domain" OctopsAnnotationIngressDomain)
        (modeRequiredKey "domain") = true) ∧
    modeRequiredKey "path" = OctopsAnnotationIngressFQDN ∧
    modeRequiredKey "domain" = OctopsAnnotationIngressDomain :=
  ⟨(c5_thm "path" gsEmptyAnn emptyIngress
      (errMsgInvalidAnnRule "path" OctopsAnnotationIngressFQDN "gs1")).1 (by decide),
   (c5_thm "domain" gsEmptyAnn emptyIngress
      (errMsgInvalidAnnTLS "domain" OctopsAnnotationIngressDomain)).2 (by decide),
   by decide, by decide⟩

/-- C6: on a target with a non-nil annotation map, when every custom-prefixed
source key has a non-empty remainder `WithCustomAnnotations` succeeds and maps
each stripped key to the source value; target keys that no prefixed source key
produces are left unchanged (non-prefixed annotations are not copied); and
when some source key equals the prefix "octops-" exactly, the step fails with
the validation error "custom annotation does not contain a suffix". -/
theorem c6_thm :
    ∀ (gs : GameServer) (ing : Ingress) (m : List (String × String)),
      ing.annotations = some m →
      ((gs.annotations.map Prod.fst).Nodup →
        (∀ k v, (k, v) ∈ gs.annotations → hasPfx OctopsAnnotationCustomPfx k = true →
          trimPfx OctopsAnnotationCustomPfx k ≠ "") →
        ∃ m2, WithCustomAnnotations gs ing = .ok { ing with annotations := some m2 } ∧
          (∀ k v, (k, v) ∈ gs.annotations → hasPfx OctopsAnnotationCustomPfx k = true →
            lookupAnn m2 (trimPfx OctopsAnnotationCustomPfx k) = some v) ∧
          (∀ c, (∀ k v, (k, v) ∈ gs.annotations → k ≠ OctopsAnnotationCustomPfx ++ c) →
            lookupAnn m2 c = lookupAnn m c)) ∧
      (OctopsAnnotationCustomPfx ∈ gs.annotations.map Prod.fst →
        WithCustomAnnotations gs ing = .err "custom annotation does not contain a suffix") := by
  intro gs ing m hm
  constructor
  · intro hnd hne
    obtain ⟨m2, heq, hprop⟩ := customLoop_ok_of_nonempty gs.annotations m hnd hne
    refine ⟨m2, ?_, ?_, ?_⟩
    · rw [WithCustomAnnotations, hm, heq]
    · intro k v hmem hpf
      have hkey : OctopsAnnotationCustomPfx ++ trimPfx OctopsAnnotationCustomPfx k = k :=
        pfx_append_trim hpf
      have hfind :
          gs.annotations.find?
            (fun p => p.1 == OctopsAnnotationCustomPfx ++ trimPfx OctopsAnnotationCustomPfx k) =
            some (k, v) := by
        rw [hkey]
        exact find?_key_of_nodup hnd hmem
      have hcv : copiedVal gs.annotations (trimPfx OctopsAnnotationCustomPfx k) = some v := by
        rw [copiedVal, hfind]
        rfl
      exact (hprop (trimPfx OctopsAnnotationCustomPfx k)).2 v hcv
    · intro c hc
      have hfind : gs.annotations.find? (fun p => p.1 == OctopsAnnotationCustomPfx ++ c) = none := by
        rw [List.find?_eq_none]
        intro a ha hac
        exact hc a.1 a.2 (by simpa using ha) (eq_of_beq hac)
      have hcv : copiedVal gs.annotations c = none := by
        rw [copiedVal, hfind]
        rfl
      exact (hprop c).1 hcv
  · intro hmem
    rw [WithCustomAnnotations, hm, customLoop_err_of_empty_suffix gs.annotations m hmem]

/-- A record with one custom-prefixed annotation, one bare octops annotation
key and one unrelated annotation. -/
def gsColor : GameServer :=
  ⟨"gs1", [("octops-color", "blue"), ("team", "red")], []⟩

/-- A record whose only annotation key is the bare custom prefix. -/
def gsBarePfx : GameServer := ⟨"gs1", [("octops-", "x")], []⟩

/-- C6, witness: `octops-color: blue` is copied to `color: blue`, `team` is
not copied, and a record with the bare key `octops-` fails with the
validation error. -/
theorem c6_wit :
    (∃ m2, WithCustomAnnotations gsColor emptyIngress =
        .ok { emptyIngress with annotations := some m2 } ∧
      (∀ k v, (k, v) ∈ gsColor.annotations → hasPfx OctopsAnnotationCustomPfx k = true →
        lookupAnn m2 (trimPfx OctopsAnnotationCustomPfx k) = some v) ∧
      (∀ c, (∀ k v, (k, v) ∈ gsColor.annotations → k ≠ OctopsAnnotationCustomPfx ++ c) →
        lookupAnn m2 c = lookupAnn [] c)) ∧
    WithCustomAnnotations gsBarePfx emptyIngress =
      .err "custom annotation does not contain a suffix" :=
  ⟨(c6_thm gsColor emptyIngress [] rfl).1 (by decide)
      (by
        intro k v hmem hpf
        simp only [gsColor, List.mem_cons, List.not_mem_nil, or_false, Prod.mk.injEq] at hmem
        rcases hmem with ⟨hk, _⟩ | ⟨hk, _⟩ <;> subst hk <;> decide),
   (c6_thm gsBarePfx emptyIngress [] rfl).2 (by decide)⟩

/-- C7: after any successful `WithIngressRule` the target holds exactly one
rule with exactly one path, and after any successful `WithTLS` exactly one
TLS entry with exactly one host — whatever the target held before, since each
builder replaces the whole list. -/
theorem c7_thm :
    ∀ (mode : String) (gs : GameServer) (ing ing2 : Ingress),
      (WithIngressRule mode gs ing = .ok ing2 →
        ing2.rules.length = 1 ∧ ∀ r ∈ ing2.rules, r.http.paths.length = 1) ∧
      (WithTLS mode gs ing = .ok ing2 →
        ing2.tls.length = 1 ∧ ∀ t ∈ ing2.tls, t.hosts.length = 1) := by
  intro mode gs ing ing2
  constructor
  · intro h
    cases hbm : mode == IngressRoutingModePath with
    | true =>
      cases hfq : lookupAnn gs.annotations OctopsAnnotationIngressFQDN with
      | none => simp [WithIngressRule, hbm, hasAnn_none hfq] at h
      | some f =>
        simp [WithIngressRule, hbm, hasAnn_some hfq] at h
        rw [← h]
        simp [newIngressRule]
    | false =>
      cases hdo : lookupAnn gs.annotations OctopsAnnotationIngressDomain with
      | none => simp [WithIngressRule, hbm, hasAnn_none hdo] at h
      | some d =>
        simp [WithIngressRule, hbm, hasAnn_some hdo] at h
        rw [← h]
        simp [newIngressRule]
  · intro h
    cases hbm : mode == IngressRoutingModePath with
    | true =>
      cases hfq : lookupAnn gs.annotations OctopsAnnotationIngressFQDN with
      | none => simp [WithTLS, tlsForPath, hbm, hasAnn_none hfq] at h
      | some f =>
        simp [WithTLS, tlsForPath, hbm, hasAnn_some hfq] at h
        rw [← h]
        simp
    | false =>
      cases hdo : lookupAnn gs.annotations OctopsAnnotationIngressDomain with
      | none => simp [WithTLS, tlsForDomain, hbm, hasAnn_none hdo] at h
      | some d =>
        simp [WithTLS, tlsForDomain, hbm, hasAnn_some hdo] at h
        rw [← h]
        simp

/-- A target already holding two rules and two TLS entries. -/
def crowdedIngress : Ingress :=
  ⟨some [],
   [⟨"a.example.com", ⟨[]⟩⟩, ⟨"b.example.com", ⟨[]⟩⟩],
   [⟨["a.example.com", "b.example.com"], "s1"⟩, ⟨["c.example.com"], "s2"⟩]⟩

/-- C7, witness: both builders run on a target that already holds two rules
and two TLS entries, and the results hold exactly one of each. -/
theorem c7_wit :
    ((Ingress.mk (some [])
        (newIngressRule ("gs1" ++ "." ++ "example.com") "/" "gs1" 0)
        [⟨["a.example.com", "b.example.com"], "s1"⟩, ⟨["c.example.com"], "s2"⟩]).rules.length = 1 ∧
      (∀ r ∈ (Ingress.mk (some [])
        (newIngressRule ("gs1" ++ "." ++ "example.com") "/" "gs1" 0)
        [⟨["a.example.com", "b.example.com"], "s1"⟩, ⟨["c.example.com"], "s2"⟩]).rules,
        r.http.paths.length = 1)) ∧
    ((Ingress.mk (some [])
        [⟨"a.example.com", ⟨[]⟩⟩, ⟨"b.example.com", ⟨[]⟩⟩]
        [⟨["gs1.example.com"], "gs1-tls"⟩]).tls.length = 1 ∧
      (∀ t ∈ (Ingress.mk (some [])
        [⟨"a.example.com", ⟨[]⟩⟩, ⟨"b.example.com", ⟨[]⟩⟩]
        [⟨["gs1.example.com"], "gs1-tls"⟩]).tls, t.hosts.length = 1)) :=
  ⟨(c7_thm IngressRoutingModeDomain gsDomainOnly crowdedIngress
      (Ingress.mk (some [])
        (newIngressRule ("gs1" ++ "." ++ "example.com") "/" "gs1" 0)
        [⟨["a.example.com", "b.example.com"], "s1"⟩, ⟨["c.example.com"], "s2"⟩])).1 (by decide),
   (c7_thm IngressRoutingModeDomain gsDomainOnly crowdedIngress
      (Ingress.mk (some [])
        [⟨"a.example.com", ⟨[]⟩⟩, ⟨"b.example.com", ⟨[]⟩⟩]
        [⟨["gs1.example.com"], "gs1-tls"⟩])).2 (by decide)⟩

/-- C8: the backend of every path of every rule a successful `WithIngressRule`
produces uses the game-server's own name as service name and the first
declared status port's number — zero when no ports are declared; and the
builder's success never depends on the ports, only on the annotations, so a
record with no ports still succeeds. -/
theorem c8_thm :
    ∀ (mode : String) (gs : GameServer) (ing : Ingress),
      (∀ ing2, WithIngressRule mode gs ing = .ok ing2 →
        ∀ r ∈ ing2.rules, ∀ q ∈ r.http.paths,
          q.backend.service.name = gs.name ∧
          (∀ p rest, gs.statusPorts = p :: rest → q.backend.service.port.number = p.port) ∧
          (gs.statusPorts = [] → q.backend.service.port.number = 0)) ∧
      (((mode = IngressRoutingModePath ∧
          (∃ f, lookupAnn gs.annotations OctopsAnnotationIngressFQDN = some f)) ∨
        (mode ≠ IngressRoutingModePath ∧
          (∃ d, lookupAnn gs.annotations OctopsAnnotationIngressDomain = some d))) →
        ∃ ing2, WithIngressRule mode gs ing = .ok ing2) := by
  intro mode gs ing
  constructor
  · intro ing2 h r hr q hq
    have hfields : q.backend.service.name = gs.name ∧
        q.backend.service.port.number = (GetGameServerPort gs).port := by
      cases hbm : mode == IngressRoutingModePath with
      | true =>
        cases hfq : lookupAnn gs.annotations OctopsAnnotationIngressFQDN with
        | none => simp [WithIngressRule, hbm, hasAnn_none hfq] at h
        | some f =>
          simp [WithIngressRule, hbm, hasAnn_some hfq] at h
          rw [← h] at hr
          simp [newIngressRule] at hr
          rw [hr] at hq
          simp at hq
          rw [hq]
          exact ⟨rfl, rfl⟩
      | false =>
        cases hdo : lookupAnn gs.annotations OctopsAnnotationIngressDomain with
        | none => simp [WithIngressRule, hbm, hasAnn_none hdo] at h
        | some d =>
          simp [WithIngressRule, hbm, hasAnn_some hdo] at h
          rw [← h] at hr
          simp [newIngressRule] at hr
          rw [hr] at hq
          simp at hq
          rw [hq]
          exact ⟨rfl, rfl⟩
    refine ⟨hfields.1, ?_, ?_⟩
    · intro p rest hp
      rw [hfields.2, GetGameServerPort, hp]
    · intro hp
      rw [hfields.2, GetGameServerPort, hp]
  · intro hcase
    rcases hcase with ⟨hmode, f, hf⟩ | ⟨hmode, d, hd⟩
    · subst hmode
      exact ⟨{ ing with
               rules := newIngressRule f ("/" ++ gs.name) gs.name (GetGameServerPort gs).port },
             by simp [WithIngressRule, hasAnn_some hf]⟩
    · have hb : (mode == IngressRoutingModePath) = false := beq_eq_false_iff_ne.mpr hmode
      exact ⟨{ ing with
               rules := newIngressRule (gs.name ++ "." ++ d) "/" gs.name (GetGameServerPort gs).port },
             by simp [WithIngressRule, hb, hasAnn_some hd]⟩

/-- A record with the domain annotation and no declared ports. -/
def gsDomainNoPorts : GameServer := gsDomainOnly

/-- C8, witness: on a record with no declared ports the builder succeeds and
the backend carries the record's name and port number zero. -/
theorem c8_wit :
    (∀ r ∈ (Ingress.mk (some [])
        (newIngressRule ("gs1" ++ "." ++ "example.com") "/" "gs1" 0) []).rules,
      ∀ q ∈ r.http.paths,
        q.backend.service.name = "gs1" ∧
        (∀ p rest, ([] : List GameServerStatusPort) = p :: rest →
          q.backend.service.port.number = p.port) ∧
        (([] : List GameServerStatusPort) = [] → q.backend.service.port.number = 0)) ∧
    (∃ ing2, WithIngressRule "domain" gsDomainNoPorts emptyIngress = .ok ing2) :=
  ⟨(c8_thm "domain" gsDomainNoPorts emptyIngress).1
      (Ingress.mk (some []) (newIngressRule ("gs1" ++ "." ++ "example.com") "/" "gs1" 0) [])
      (by decide),
   (c8_thm "domain" gsDomainNoPorts emptyIngress).2
      (Or.inr ⟨by decide, "example.com", rfl⟩)⟩

/-- C9: the pipeline of the four steps, in order, is a deterministic function
of the record and the initial target: run twice against equal fresh copies of
the same target with the same record, it produces identical outcomes — in
particular identical final resources when both runs succeed. -/
theorem c9_thm :
    ∀ (mode issuerName : String) (gs : GameServer) (ing1 ing2 : Ingress),
      ing1 = ing2 →
      runPipeline [WithCustomAnnotations, WithIngressRule mode, WithTLS mode,
          WithTLSCertIssuer issuerName] gs ing1 =
        runPipeline [WithCustomAnnotations, WithIngressRule mode, WithTLS mode,
          WithTLSCertIssuer issuerName] gs ing2 := by
  intro mode issuerName gs ing1 ing2 h
  rw [h]

/-- C9, witness: the determinism theorem applied to a concrete full run. -/
theorem c9_wit :
    runPipeline [WithCustomAnnotations, WithIngressRule IngressRoutingModeDomain,
        WithTLS IngressRoutingModeDomain, WithTLSCertIssuer "my-issuer"]
        gsDomainOnly emptyIngress =
      runPipeline [WithCustomAnnotations, WithIngressRule IngressRoutingModeDomain,
        WithTLS IngressRoutingModeDomain, WithTLSCertIssuer "my-issuer"]
        gsDomainOnly emptyIngress :=
  c9_thm IngressRoutingModeDomain "my-issuer" gsDomainOnly emptyIngress emptyIngress rfl

/-- C10: `WithCustomAnnotations` and `WithTLSCertIssuer` never panic on a
target whose annotation map is non-nil; on a nil map each panics exactly when
a write is reached (a custom-prefixed source key with non-empty remainder,
resp. the issuer ladder falling through to its write), while runs that reach
no write stay total even on the nil map. -/
theorem c10_thm :
    (∀ (gs : GameServer) (ing : Ingress) (m : List (String × String)) (issuerName : String),
      ing.annotations = some m →
      WithCustomAnnotations gs ing ≠ .panicked ∧
      WithTLSCertIssuer issuerName gs ing ≠ .panicked) ∧
    WithCustomAnnotations gsColor nilMapIngress = .panicked ∧
    WithTLSCertIssuer "my-issuer" gsTermTrue nilMapIngress = .panicked ∧
    WithCustomAnnotations gsEmptyAnn nilMapIngress = .ok nilMapIngress ∧
    WithTLSCertIssuer "my-issuer" gsTermFalse nilMapIngress = .ok nilMapIngress := by
  refine ⟨?_, by decide, by decide, by decide, by decide⟩
  intro gs ing m issuerName hm
  constructor
  · intro h
    apply customLoop_some_ne_panicked gs.annotations m
    simp only [WithCustomAnnotations, hm] at h
    cases hc : customLoop gs.annotations (some m) with
    | ok mm => rw [hc] at h; simp at h
    | err e => rw [hc] at h; simp at h
    | panicked => rfl
  · intro h
    cases ht : lookupAnn gs.annotations OctopsAnnotationTerminateTLS with
    | none => simp [WithTLSCertIssuer, hasAnn_none ht] at h
    | some t =>
      cases hl : t.length == 0 with
      | true => simp [WithTLSCertIssuer, hasAnn_some ht, hl] at h
      | false =>
        cases hp : ParseBool t with
        | none => simp [WithTLSCertIssuer, hasAnn_some ht, hl, hp] at h
        | some b =>
          cases b with
          | false => simp [WithTLSCertIssuer, hasAnn_some ht, hl, hp] at h
          | true =>
            cases hs : lookupAnn gs.annotations OctopsAnnotationSecretName with
            | some s =>
              simp [WithTLSCertIssuer, hasAnn_some ht, hl, hp,
                hasAnn_some hs] at h
            | none =>
              cases hiss : issuerName.length == 0 with
              | true =>
                simp [WithTLSCertIssuer, hasAnn_some ht, hl, hp,
                  hasAnn_none hs, hiss] at h
              | false =>
                simp [WithTLSCertIssuer, hasAnn_some ht, hl, hp,
                  hasAnn_none hs, hiss, hm] at h

/-- C10, witness: the totality half of the claim applied to concrete records
over a target with an empty but non-nil annotation map. -/
theorem c10_wit :
    WithCustomAnnotations gsColor emptyIngress ≠ .panicked ∧
    WithTLSCertIssuer "my-issuer" gsTermTrue emptyIngress ≠ .panicked :=
  ⟨(c10_thm.1 gsColor emptyIngress [] "my-issuer" rfl).1,
   (c10_thm.1 gsTermTrue emptyIngress [] "my-issuer" rfl).2⟩

end GSIC
